import Mathlib

/-!
# cert-monitor: shallow embedding and verification

A shallow embedding of the core of the `cert-monitor` repository
(`internal/cert/cert.go`, `internal/scanner/scanner.go`,
`internal/cache/cache.go`, and the constants of
`internal/metrics/metrics.go`) together with proofs about the embedded
functions.

Modelling conventions:
* Go strings are Lean `String`; byte strings are `List Nat` (one `Nat`
  per byte).
* `time.Time` and `time.Duration` are mathematical integers counting
  nanoseconds (Go's `int64` arithmetic does not overflow in the ranges
  the program uses).
* Go maps are association lists whose insert removes any previous
  binding of the key, so lookups behave exactly like Go map lookups.
* External effects (the Prometheus metrics sink) are modelled as a list
  of emitted events; fallible OS calls (`os.Stat`, `os.ReadFile`) are
  modelled by `Option`-valued inputs describing the outcome the OS
  would give.
-/

namespace CertMonitor

/-! ## Go string helpers

`strings.ToLower`, `strings.EqualFold` and `strings.Contains` as used
by `internal/cert/cert.go` and `internal/scanner/scanner.go`.  The
certificates and directory names the program compares are ASCII, so
ASCII case mapping (Lean's `Char.toLower`) models Go's Unicode case
mapping faithfully on every input the claims touch. -/

/-- Go `strings.ToLower`. -/
def goToLower (s : String) : String :=
  String.mk (s.toList.map Char.toLower)

/-- Go `strings.EqualFold`: case-insensitive string equality. -/
def goEqualFold (a b : String) : Bool :=
  goToLower a == goToLower b

/-- Substring search on `List Char`: does `n` occur inside `h`?
Mirrors `strings.Contains(h, n)`. -/
def containsL : List Char → List Char → Bool
  | [], n => n.isEmpty
  | a :: t, n => n.isPrefixOf (a :: t) || containsL t n

/-- Go `strings.Contains(h, n)`. -/
def goContains (h n : String) : Bool :=
  containsL h.toList n.toList

/-- Go `filepath.Ext(name)`: the suffix beginning at the final dot of
`name`, or `""` when `name` has no dot.  The scanner only ever applies
it to base names (`d.Name()`), which contain no path separator. -/
def filepathExtL : List Char → Option (List Char)
  | [] => none
  | c :: rest =>
    match filepathExtL rest with
    | some e => some e
    | none => if c == '.' then some (c :: rest) else none

/-- Go `filepath.Ext` on strings. -/
def filepathExt (s : String) : String :=
  match filepathExtL s.toList with
  | some e => String.mk e
  | none => ""

theorem containsL_iff_infix (h n : List Char) :
    containsL h n = true ↔ n <:+: h := by
  induction h with
  | nil =>
    simp [containsL, List.isEmpty_iff]
  | cons a t ih =>
    simp only [containsL, Bool.or_eq_true, List.isPrefixOf_iff_prefix, ih,
      List.infix_cons_iff]

theorem goEqualFold_iff (a b : String) :
    goEqualFold a b = true ↔ goToLower a = goToLower b := by
  simp [goEqualFold]

theorem goContains_iff (h n : String) :
    goContains h n = true ↔ n.toList <:+: h.toList := by
  simp [goContains, containsL_iff_infix]

/-! ## internal/cert/cert.go -/

/-- The shape of `cert.PublicKey` as far as `IsWeakKey` inspects it:
an RSA key with its modulus bit length (`pub.N.BitLen()`), an ECDSA
key with its curve bit size (`pub.Curve.Params().BitSize`), or any
other key type. -/
inductive PublicKey where
  | rsa (modulusBitLen : Nat)
  | ecdsa (curveBitSize : Nat)
  | otherKey
deriving DecidableEq, Repr

/-- Go `x509.SignatureAlgorithm`, restricted to the constructors the
program distinguishes. -/
inductive SignatureAlgorithm where
  | SHA1WithRSA
  | DSAWithSHA1
  | ECDSAWithSHA1
  | MD5WithRSA
  | SHA256WithRSA
  | ECDSAWithSHA256
  | otherAlg
deriving DecidableEq, Repr

/-- The fields of `x509.Certificate` the scanner reads.  Times are
Unix nanoseconds. -/
structure Certificate where
  subjectCN : String
  issuerCN : String
  notBefore : Int
  notAfter : Int
  dnsNames : List String
  raw : List Nat
  publicKey : PublicKey
  sigAlg : SignatureAlgorithm
deriving DecidableEq, Repr

/-- Go `cert.DetermineIssuerCode`: 30=digicert, 31=amazon, 32=other,
33=self-signed (checked first).  The Go function returns these codes
as `float64`; the values are small integers, so `Nat` is exact. -/
def DetermineIssuerCode (c : Certificate) : Nat :=
  if goEqualFold c.subjectCN c.issuerCN then 33
  else
    let issuerLower := goToLower c.issuerCN
    if goContains issuerLower "digicert" then 30
    else if goContains issuerLower "amazon" then 31
    else 32

/-- Go `cert.IsWeakKey`. -/
def IsWeakKey (c : Certificate) : Bool :=
  match c.publicKey with
  | .rsa n => n < 2048
  | .ecdsa b => b < 256
  | .otherKey => false

/-- Go `cert.IsDeprecatedSigAlg`. -/
def IsDeprecatedSigAlg (alg : SignatureAlgorithm) : Bool :=
  alg == .SHA1WithRSA || alg == .DSAWithSHA1 ||
  alg == .ECDSAWithSHA1 || alg == .MD5WithRSA

/-! ## Time and duration constants (nanoseconds, as Go `time.Duration`) -/

def nsPerSecond : Int := 1000000000

/-- Go `30 * time.Second`: the base backoff delay. -/
def baseBackoffDelay : Int := 30 * nsPerSecond

/-- Go `MaxBackoff = 10 * time.Minute` (scanner.go). -/
def MaxBackoff : Int := 600 * nsPerSecond

/-- Go `10 * time.Second`: exclusive upper bound of the jitter drawn by
`rand.Int63n(int64(10 * time.Second))`. -/
def maxJitter : Int := 10 * nsPerSecond

def nsPerDay : Int := 86400 * nsPerSecond

/-! ## Backoff tracker (`s.backoff : map[string]time.Time`, scanner.go)

The map is an association list whose insert erases any previous
binding, so it looks up exactly like a Go map.  All operations run
under `backoffMutex` in Go; here they are sequential functions. -/

abbrev BackoffMap := List (String × Int)

/-- Go map lookup `t, ok := m[dir]`. -/
def bLookup (m : BackoffMap) (dir : String) : Option Int :=
  match m with
  | [] => none
  | (d, t) :: rest => if d = dir then some t else bLookup rest dir

/-- Go map deletion `delete(m, dir)`. -/
def bErase (m : BackoffMap) (dir : String) : BackoffMap :=
  m.filter (fun p => !(decide (p.1 = dir)))

/-- Go map assignment `m[dir] = t`. -/
def bInsert (m : BackoffMap) (dir : String) (t : Int) : BackoffMap :=
  (dir, t) :: bErase m dir

/-- The delay chosen by `registerScanFailure` before jitter:
`30s`, unless an unexpired entry exists (`ok && t.After(now)`), in
which case the remaining time is doubled and clamped to `MaxBackoff`.
(The Go code also maps a negative doubled delay — an `int64` overflow
artefact — to `MaxBackoff`; with mathematical integers the doubled
remaining time of an unexpired entry is positive, so only the upper
clamp is reachable.) -/
def failureDelay (m : BackoffMap) (dir : String) (now : Int) : Int :=
  match bLookup m dir with
  | some t =>
    if now < t then
      let d := (t - now) * 2
      if d > MaxBackoff then MaxBackoff else d
    else baseBackoffDelay
  | none => baseBackoffDelay

/-- Go `registerScanFailure(dir)`: sets
`backoff[dir] = now + delay + jitter`.  `now` and the random `jitter`
are passed explicitly. -/
def registerScanFailure (m : BackoffMap) (dir : String) (now jitter : Int) :
    BackoffMap :=
  bInsert m dir (now + failureDelay m dir now + jitter)

/-- Go `shouldSkipScan(dir)`: returns the boolean answer and the
(possibly mutated) backoff map.  An entry in the future means "skip,
no mutation"; an entry at or before `now` is deleted and the scan is
allowed; no entry means "do not skip". -/
def shouldSkipScan (m : BackoffMap) (dir : String) (now : Int) :
    Bool × BackoffMap :=
  match bLookup m dir with
  | none => (false, m)
  | some nextAllowed =>
    if now < nextAllowed then (true, m)
    else (false, bErase m dir)

/-- Go `clearExpiredBackoffs`: drops every entry with `now.After(t)`. -/
def clearExpiredBackoffs (m : BackoffMap) (now : Int) : BackoffMap :=
  m.filter (fun p => !(decide (p.2 < now)))

theorem bLookup_bInsert_self (m : BackoffMap) (dir : String) (t : Int) :
    bLookup (bInsert m dir t) dir = some t := by
  simp [bInsert, bLookup]

theorem bLookup_bErase_self (m : BackoffMap) (dir : String) :
    bLookup (bErase m dir) dir = none := by
  induction m with
  | nil => rfl
  | cons p rest ih =>
    by_cases h : p.1 = dir <;> simp [bErase, bLookup, h] at ih ⊢ <;>
      simpa [bErase] using ih

/-! ## internal/cache/cache.go

`CachedCertMeta` and the path-keyed table.  The `[32]byte` fingerprint
is a `List Nat` of byte values; the Go type forces length 32 and every
byte below 256, which the round-trip theorem takes as hypotheses. -/

/-- Go `cache.CachedCertMeta`. -/
structure CachedCertMeta where
  fingerprint : List Nat
  modTime : Int
  size : Int
deriving DecidableEq, Repr

/-- Go `os.FileInfo` as far as the scanner and cache read it. -/
structure FileStat where
  modTime : Int
  size : Int
deriving DecidableEq, Repr

/-- The cache's `data : map[string]CachedCertMeta`. -/
abbrev CacheTable := List (String × CachedCertMeta)

/-- Go map lookup on the cache table. -/
def cLookup (m : CacheTable) (path : String) : Option CachedCertMeta :=
  match m with
  | [] => none
  | (p, e) :: rest => if p = path then some e else cLookup rest path

/-- Go map assignment on the cache table. -/
def cInsert (m : CacheTable) (path : String) (e : CachedCertMeta) :
    CacheTable :=
  (path, e) :: m.filter (fun q => !(decide (q.1 = path)))

/-- Go `Cache.GetEntryAtomic(path)`: stats the file, then looks the path
up under the read lock.  The stat outcome is an input (`none` = stat
error); the result is `none` on stat error and otherwise the cached
entry (if found) together with the fresh stat. -/
def Cache.GetEntryAtomic (m : CacheTable) (path : String)
    (statResult : Option FileStat) :
    Option (Option CachedCertMeta × FileStat) :=
  match statResult with
  | none => none
  | some info => some (cLookup m path, info)

/-- Go `Cache.SetEntryAtomic(path, fingerprint, info)`. -/
def Cache.SetEntryAtomic (m : CacheTable) (path : String)
    (fingerprint : List Nat) (info : FileStat) : CacheTable :=
  cInsert m path ⟨fingerprint, info.modTime, info.size⟩

/-! ### JSON persistence (`Cache.Save` / `Cache.Load`)

The file contents are modelled at the JSON-value level: `Save`
marshals the table to a JSON value (`json.MarshalIndent` pretty-prints
it; the textual rendering is injective, so the value is a faithful
stand-in for the bytes), and `Load` decodes a JSON value back.
`ModTime` is serialized as its integer nanosecond timestamp. -/

inductive Json where
  | num (n : Int)
  | str (s : String)
  | arr (elems : List Json)
  | obj (fields : List (String × Json))
deriving Repr

/-- One byte of the `[32]byte` fingerprint. -/
def encodeByte (b : Nat) : Json := .num (b : Int)

/-- Go `encoding/json` unmarshalling of one array element into a `byte`:
a number that fits a byte; anything else is an unmarshalling error. -/
def decodeByte (j : Json) : Option Nat :=
  match j with
  | .num n => if 0 ≤ n ∧ n < 256 then some n.toNat else none
  | _ => none

/-- All-or-nothing elementwise decoding, as `encoding/json` treats
aggregate values: any failing element fails the whole unmarshal. -/
def mapOption (f : α → Option β) : List α → Option (List β)
  | [] => some []
  | a :: l =>
    match f a with
    | none => none
    | some b =>
      match mapOption f l with
      | none => none
      | some bs => some (b :: bs)

/-- Unmarshal a JSON array into `[32]byte`, Go-style: excess elements
are discarded, missing elements become zero. -/
def decodeFingerprint (js : List Json) : Option (List Nat) :=
  match mapOption decodeByte js with
  | none => none
  | some bs =>
    some ((bs.take 32) ++ List.replicate (32 - bs.length) 0)

/-- Marshal one `CachedCertMeta`. -/
def encodeMeta (e : CachedCertMeta) : Json :=
  .obj [("Fingerprint", .arr (e.fingerprint.map encodeByte)),
        ("ModTime", .num e.modTime),
        ("Size", .num e.size)]

/-- JSON object field lookup by name. -/
def jField (fields : List (String × Json)) (name : String) : Option Json :=
  match fields with
  | [] => none
  | (k, v) :: rest => if k = name then some v else jField rest name

/-- Unmarshal one `CachedCertMeta`. -/
def decodeMeta (j : Json) : Option CachedCertMeta :=
  match j with
  | .obj fields =>
    match jField fields "Fingerprint", jField fields "ModTime",
        jField fields "Size" with
    | some (.arr js), some (.num mt), some (.num sz) =>
      match decodeFingerprint js with
      | some fp => some ⟨fp, mt, sz⟩
      | none => none
    | _, _, _ => none
  | _ => none

/-- Go `Cache.Save`: marshal the whole table to one JSON object. -/
def Cache.Save (m : CacheTable) : Json :=
  .obj (m.map (fun pe => (pe.1, encodeMeta pe.2)))

/-- Unmarshal a whole table.  All-or-nothing: any malformed entry
makes `json.Unmarshal` fail. -/
def decodeTable (j : Json) : Option (List (String × CachedCertMeta)) :=
  match j with
  | .obj fields =>
    mapOption (fun kv =>
      match decodeMeta kv.2 with
      | some e => some (kv.1, e)
      | none => none) fields
  | _ => none

/-- Outcome of `os.ReadFile` on the cache file. -/
inductive ReadResult where
  | readError
  | content (j : Json)

/-- Go `Cache.Load`: on read error the table is untouched; on a parse
error the table is reset to empty; on success `json.Unmarshal` merges
the decoded entries into the existing map (later duplicates win). -/
def Cache.Load (m : CacheTable) (r : ReadResult) : CacheTable :=
  match r with
  | .readError => m
  | .content j =>
    match decodeTable j with
    | none => []
    | some entries => entries.foldl (fun acc pe => cInsert acc pe.1 pe.2) m

/-- Go `Cache.Clear`. -/
def Cache.Clear (_ : CacheTable) : CacheTable := []

/-! ## internal/scanner/scanner.go

The scan of a single directory (`ProcessDirectory`) and its helpers.
Writes to the Prometheus sink are modelled as a list of `MetricEvent`s
emitted in program order; the walk input is the sequence of callback
invocations `filepath.WalkDir` performs over the tree. -/

/-- The configuration fields the scanner reads from `config.Get()`.
The snapshot is always present (`config.Get() != nil`). -/
structure Config where
  dryRun : Bool
  expiryThresholdDays : Int
  enableWeakCryptoMetrics : Bool
deriving Repr

/-- Go `s.shouldWriteMetrics()`: `cfg != nil && !cfg.DryRun`. -/
def shouldWriteMetrics (cfg : Config) : Bool :=
  !cfg.dryRun

/-- One write to the metrics sink, labelled as in `processCertificate`
and `ProcessDirectory`. -/
inductive MetricEvent where
  | certScanDuration (dir : String)
  | certParseErrors (path : String)
  | certFilesTotal (dir : String)
  | certsParsedTotal (dir : String)
  | certLastScan (dir : String)
  | certExpiration (cn file : String)
  | certNotBefore (cn file : String)
  | certSANCount (cn file : String)
  | certInfo (cn file sans : String)
  | certIssuer (issuer cn file : String)
  | certDuplicateCount (cn file : String)
  | certIssuerCode (cn file : String)
  | certExpiringSoon (cn file hostname : String) (dup : Nat)
  | weakKeyCounter (cn file : String)
  | deprecatedSigAlgCounter (cn file : String)
  | labelsTruncated
deriving DecidableEq, Repr

/-- Go `metrics.MaxLabelLength = 120` (internal/metrics/metrics.go). -/
def MaxLabelLength : Nat := 120

/-- Go `metrics.MaxSANsExported = 10` (internal/metrics/metrics.go). -/
def MaxSANsExported : Nat := 10

/-- Go `s.sanitizeLabelValue(val)`: trim, truncate to `MaxLabelLength`,
and count a truncation.  Go truncates on bytes; the labels the claims
touch are ASCII, where characters and bytes coincide. -/
def sanitizeLabelValue (val : String) : String × List MetricEvent :=
  let v := val.trim
  if v.length > MaxLabelLength then
    (String.mk (v.toList.take MaxLabelLength), [.labelsTruncated])
  else (v, [])

/-- Go `sha256.Sum256`: an abstract injective 32-byte digest.  None of
the verified claims depends on any property of SHA-256 beyond its
determinism (equal raw bytes give equal fingerprints), so the digest
is modelled by the identity embedding of the input bytes. -/
def sha256Sum (bytes : List Nat) : List Nat := bytes

/-- One `pem.Block` as `pem.Decode` yields it, together with the
outcome `x509.ParseCertificate` would give on its `Bytes`. -/
structure PEMBlock where
  blockType : String
  parseResult : Option Certificate
deriving Repr

/-- The two views of a file's raw bytes the scanner may take:
`x509.ParseCertificate(raw)` for `.der`, and the sequence of PEM
blocks `pem.Decode` yields for the PEM family. -/
structure RawContent where
  derParse : Option Certificate
  pemBlocks : List PEMBlock
deriving Repr

/-- The PEM loop of `parseLeafCertificate`: decode sequential blocks,
skip non-`CERTIFICATE` types, count a parse error (and continue) on a
block that fails to parse, and return the first success. -/
def pemFindLeaf (blocks : List PEMBlock) (path dirPath : String) :
    Except String Certificate × List MetricEvent :=
  match blocks with
  | [] => (.error "no valid certificate found", [])
  | b :: rest =>
    if b.blockType = "CERTIFICATE" then
      match b.parseResult with
      | some c => (.ok c, [.certsParsedTotal dirPath])
      | none =>
        ((pemFindLeaf rest path dirPath).1,
          .certParseErrors path :: (pemFindLeaf rest path dirPath).2)
    else pemFindLeaf rest path dirPath

/-- Go `s.parseLeafCertificate(raw, ext, path, dirPath)`. -/
def parseLeafCertificate (raw : RawContent) (ext : String)
    (path dirPath : String) : Except String Certificate × List MetricEvent :=
  if ext = ".der" then
    match raw.derParse with
    | none => (.error "x509 parse error", [.certParseErrors path])
    | some c => (.ok c, [.certsParsedTotal dirPath])
  else pemFindLeaf raw.pemBlocks path dirPath

/-- The per-pass duplicate map `seen`, keyed by the leaf fingerprint
(Go keys by its hex rendering, an injective image of the bytes). -/
abbrev SeenMap := List (List Nat × Nat)

def sLookup (m : SeenMap) (k : List Nat) : Option Nat :=
  match m with
  | [] => none
  | (k', n) :: rest => if k' = k then some n else sLookup rest k

def sInsert (m : SeenMap) (k : List Nat) (n : Nat) : SeenMap :=
  (k, n) :: m.filter (fun q => !(decide (q.1 = k)))

/-- Go `seen[key]++` and the incremented value. -/
def seenIncr (m : SeenMap) (k : List Nat) : SeenMap × Nat :=
  let n := (sLookup m k).getD 0 + 1
  (sInsert m k n, n)

/-- Go `s.processCertificate(cert, path, dirPath, seen, hostname,
dryRun)`: updates the duplicate map and emits the per-certificate
metrics, all of which sit behind `!dryRun && s.shouldWriteMetrics()`.
`name` is `filepath.Base(path)`; `now` is the current time. -/
def processCertificate (cfg : Config) (c : Certificate)
    (name : String) (seen : SeenMap) (hostname : String)
    (dryRun : Bool) (now : Int) : SeenMap × List MetricEvent :=
  let file := (sanitizeLabelValue name).1
  let evFile := (sanitizeLabelValue name).2
  let key := sha256Sum c.raw
  let seen' := (seenIncr seen key).1
  let dup := (seenIncr seen key).2
  let cn := (sanitizeLabelValue c.subjectCN).1
  let evCN := (sanitizeLabelValue c.subjectCN).2
  let issuer := (sanitizeLabelValue c.issuerCN).1
  let evIssuer := (sanitizeLabelValue c.issuerCN).2
  let sansPair :=
    if c.dnsNames.length > 0 then
      sanitizeLabelValue (String.intercalate "," (c.dnsNames.take MaxSANsExported))
    else ("", [])
  let sans := sansPair.1
  let evSANs := sansPair.2
  let gaugeEvents :=
    if !dryRun && shouldWriteMetrics cfg then
      [.certExpiration cn file, .certNotBefore cn file,
       .certSANCount cn file, .certInfo cn file sans,
       .certIssuer issuer cn file, .certDuplicateCount cn file,
       .certIssuerCode cn file]
      ++ (if c.notAfter - now ≤ cfg.expiryThresholdDays * nsPerDay then
            [MetricEvent.certExpiringSoon cn file hostname dup]
          else [])
      ++ (if cfg.enableWeakCryptoMetrics then
            (if IsWeakKey c then [MetricEvent.weakKeyCounter cn file] else [])
            ++ (if IsDeprecatedSigAlg c.sigAlg then
                  [MetricEvent.deprecatedSigAlgCounter cn file]
                else [])
          else [])
    else []
  (seen', evFile ++ evCN ++ evIssuer ++ evSANs ++ gaugeEvents)

/-- One regular file the walk reaches: its path, base name
(`d.Name()`), the outcome of `os.Stat` (`none` = stat error), whether
`os.ReadFile` succeeds, and the content views of its bytes. -/
structure WalkFile where
  path : String
  name : String
  statResult : Option FileStat
  readOk : Bool
  content : RawContent
deriving Repr

/-- One invocation of the `filepath.WalkDir` callback: a directory
entry, a regular file, or an entry reported with a non-nil error
(e.g. an I/O failure mid-walk). -/
inductive WalkEntry where
  | dirEntry (name path : String)
  | fileEntry (f : WalkFile)
  | errEntry (path : String)
deriving Repr

/-- What the callback returns to `filepath.WalkDir`. -/
inductive WalkRet where
  | next
  | skipDir
  | fail (msg : String)
deriving DecidableEq, Repr

/-- The control value the scanner's callback returns for an entry:
`nil` when the entry carries an error (`if err != nil { return nil }`),
`filepath.SkipDir` for `old`/`working` directories, and `nil` on every
other path through the body. -/
def walkCallbackRet (e : WalkEntry) : WalkRet :=
  match e with
  | .errEntry _ => .next
  | .dirEntry name _ =>
    if goToLower name = "old" ∨ goToLower name = "working" then .skipDir
    else .next
  | .fileEntry _ => .next

/-- The error `filepath.WalkDir` returns: the first error the callback
returns (`SkipDir` is filtered out by `WalkDir` itself). -/
def walkDirResult (entries : List WalkEntry) : Option String :=
  entries.findSome? (fun e =>
    match walkCallbackRet e with
    | .fail msg => some msg
    | _ => none)

/-- The state the walk threads through the callback invocations,
plus instrumentation counting file reads (`os.ReadFile` calls),
leaf-extraction attempts, and cache writes. -/
structure ScanAcc where
  seen : SeenMap
  events : List MetricEvent
  cache : CacheTable
  reads : Nat
  parses : Nat
  cacheWrites : Nat
deriving Repr

/-- The body of the `filepath.WalkDir` closure in `ProcessDirectory`,
for one callback invocation. -/
def stepEntry (cfg : Config) (dryRun : Bool) (dirPath hostname : String)
    (now : Int) (acc : ScanAcc) (e : WalkEntry) : ScanAcc :=
  match e with
  | .errEntry _ => acc
  | .dirEntry _ _ => acc
  | .fileEntry f =>
    let ext := goToLower (filepathExt f.name)
    if ¬ (ext = ".pem" ∨ ext = ".crt" ∨ ext = ".cer" ∨ ext = ".der") then
      acc
    else
      match Cache.GetEntryAtomic acc.cache f.path f.statResult with
      | none =>
        { acc with events := acc.events ++ [.certParseErrors f.path] }
      | some (cachedOpt, info) =>
        let acc1 :=
          { acc with events := acc.events ++ [.certFilesTotal dirPath] }
        match cachedOpt with
        | some cached =>
          if cached.modTime = info.modTime ∧ cached.size = info.size then
            acc1
          else
            stepRead cfg dryRun dirPath hostname now acc1 f info ext
        | none => stepRead cfg dryRun dirPath hostname now acc1 f info ext
  where
    /-- The tail of the closure body from `os.ReadFile` on. -/
    stepRead (cfg : Config) (dryRun : Bool) (dirPath hostname : String)
        (now : Int) (acc : ScanAcc) (f : WalkFile) (info : FileStat)
        (ext : String) : ScanAcc :=
      let acc := { acc with reads := acc.reads + 1 }
      if ¬ f.readOk then
        { acc with events := acc.events ++ [.certParseErrors f.path] }
      else
        let acc := { acc with parses := acc.parses + 1 }
        let acc :=
          { acc with
            events := acc.events ++ (parseLeafCertificate f.content ext f.path dirPath).2 }
        match (parseLeafCertificate f.content ext f.path dirPath).1 with
        | .error _ => acc
        | .ok leaf =>
          { acc with
            seen := (processCertificate cfg leaf f.name acc.seen hostname dryRun now).1,
            events := acc.events ++
              (processCertificate cfg leaf f.name acc.seen hostname dryRun now).2,
            cache := Cache.SetEntryAtomic acc.cache f.path (sha256Sum leaf.raw) info,
            cacheWrites := acc.cacheWrites + 1 }

/-- Go `filepath.WalkDir` driving the callback over the invocation
sequence. -/
def walkFold (cfg : Config) (dryRun : Bool) (dirPath hostname : String)
    (now : Int) (acc : ScanAcc) : List WalkEntry → ScanAcc
  | [] => acc
  | e :: rest =>
    walkFold cfg dryRun dirPath hostname now
      (stepEntry cfg dryRun dirPath hostname now acc e) rest

/-- Everything `ProcessDirectory` produces: the returned duplicate
map, the emitted metric events, and the final cache and backoff
states, plus the instrumentation counters. -/
structure DirResult where
  seen : SeenMap
  events : List MetricEvent
  cache : CacheTable
  backoff : BackoffMap
  reads : Nat
  parses : Nat
  cacheWrites : Nat
deriving Repr

/-- Go `s.ProcessDirectory(dirPath, dryRun)`.  Inputs supplied by the
environment: the outcome of `os.Stat(dirPath)` (`none` = error,
`some b` = success with `IsDir() = b`), the walk invocation sequence,
the hostname, the current time and the backoff jitter draw.  The
`CertScanDuration` observation is deferred after the backoff check, so
a backoff skip emits nothing; a root failure emits it and registers a
failure; `CertLastScan` is deferred only after the root check and is
guarded by `!dryRun && s.shouldWriteMetrics()`. -/
def ProcessDirectory (cfg : Config) (cache : CacheTable)
    (backoff : BackoffMap) (dirPath : String) (dryRun : Bool)
    (rootIsDir : Option Bool) (entries : List WalkEntry)
    (hostname : String) (now jitter : Int) : DirResult :=
  match shouldSkipScan backoff dirPath now with
  | (true, b1) => ⟨[], [], cache, b1, 0, 0, 0⟩
  | (false, b1) =>
    if rootIsDir ≠ some true then
      ⟨[], [.certScanDuration dirPath], cache,
        registerScanFailure b1 dirPath now jitter, 0, 0, 0⟩
    else
      let acc := walkFold cfg dryRun dirPath hostname now
        ⟨[], [], cache, 0, 0, 0⟩ entries
      let b2 :=
        match walkDirResult entries with
        | some _ => registerScanFailure b1 dirPath now jitter
        | none => b1
      let lastScanEvents :=
        if !dryRun && shouldWriteMetrics cfg then [MetricEvent.certLastScan dirPath]
        else []
      ⟨acc.seen, acc.events ++ lastScanEvents ++ [.certScanDuration dirPath],
        acc.cache, b2, acc.reads, acc.parses, acc.cacheWrites⟩

/-! ## Claim theorems -/

/-- C5: `DetermineIssuerCode` returns 33 whenever subject CN equals
issuer CN case-insensitively, and this check dominates all others;
otherwise it returns 30 iff the issuer CN contains "digicert"
case-insensitively, 31 iff it contains "amazon" (case-insensitively)
but not "digicert", and 32 in all remaining cases. -/
theorem determineIssuerCode_spec (c : Certificate) :
    (DetermineIssuerCode c = 33 ↔
      goToLower c.subjectCN = goToLower c.issuerCN) ∧
    (goToLower c.subjectCN ≠ goToLower c.issuerCN →
      ((DetermineIssuerCode c = 30 ↔
          "digicert".toList <:+: (goToLower c.issuerCN).toList) ∧
       (DetermineIssuerCode c = 31 ↔
          (¬ "digicert".toList <:+: (goToLower c.issuerCN).toList ∧
           "amazon".toList <:+: (goToLower c.issuerCN).toList)) ∧
       (DetermineIssuerCode c = 32 ↔
          (¬ "digicert".toList <:+: (goToLower c.issuerCN).toList ∧
           ¬ "amazon".toList <:+: (goToLower c.issuerCN).toList)))) := by
  have hfold := goEqualFold_iff c.subjectCN c.issuerCN
  have hdig := goContains_iff (goToLower c.issuerCN) "digicert"
  have hama := goContains_iff (goToLower c.issuerCN) "amazon"
  by_cases h1 : goEqualFold c.subjectCN c.issuerCN = true
  · have heq := hfold.mp h1
    have hD : DetermineIssuerCode c = 33 := by
      unfold DetermineIssuerCode; rw [if_pos h1]
    exact ⟨iff_of_true hD heq, fun hne => absurd heq hne⟩
  · have hne : ¬ goToLower c.subjectCN = goToLower c.issuerCN := by
      intro h; exact h1 (hfold.mpr h)
    by_cases h2 : goContains (goToLower c.issuerCN) "digicert" = true
    · have hd := hdig.mp h2
      have hD : DetermineIssuerCode c = 30 := by
        unfold DetermineIssuerCode; rw [if_neg h1]; exact if_pos h2
      rw [hD]
      refine ⟨iff_of_false (by decide) hne, fun _ => ?_⟩
      exact ⟨iff_of_true rfl hd,
        iff_of_false (by decide) (fun h => h.1 hd),
        iff_of_false (by decide) (fun h => h.1 hd)⟩
    · have hnd : ¬ "digicert".toList <:+: (goToLower c.issuerCN).toList := by
        intro h; exact h2 (hdig.mpr h)
      by_cases h3 : goContains (goToLower c.issuerCN) "amazon" = true
      · have ha := hama.mp h3
        have hD : DetermineIssuerCode c = 31 := by
          unfold DetermineIssuerCode; rw [if_neg h1, if_neg h2]; exact if_pos h3
        rw [hD]
        refine ⟨iff_of_false (by decide) hne, fun _ => ?_⟩
        exact ⟨iff_of_false (by decide) (fun h => absurd h hnd),
          iff_of_true rfl ⟨hnd, ha⟩,
          iff_of_false (by decide) (fun h => h.2 ha)⟩
      · have hna : ¬ "amazon".toList <:+: (goToLower c.issuerCN).toList := by
          intro h; exact h3 (hama.mpr h)
        have hD : DetermineIssuerCode c = 32 := by
          unfold DetermineIssuerCode; rw [if_neg h1, if_neg h2]; exact if_neg h3
        rw [hD]
        refine ⟨iff_of_false (by decide) hne, fun _ => ?_⟩
        exact ⟨iff_of_false (by decide) (fun h => absurd h hnd),
          iff_of_false (by decide) (fun h => absurd h.2 hna),
          iff_of_true rfl ⟨hnd, hna⟩⟩

/-- C5 witness: a self-signed certificate whose issuer CN contains
"DigiCert" still classifies 33, not 30; and the other classes at
concrete issuers. -/
theorem determineIssuerCode_spec_witness :
    DetermineIssuerCode
      ⟨"DigiCert Global Root", "digicert global root", 0, 0, [], [],
        .otherKey, .otherAlg⟩ = 33 ∧
    DetermineIssuerCode
      ⟨"leaf", "DigiCert TLS CA", 0, 0, [], [], .otherKey, .otherAlg⟩ = 30 ∧
    DetermineIssuerCode
      ⟨"leaf", "Amazon RSA 2048 M02", 0, 0, [], [], .otherKey, .otherAlg⟩ = 31 ∧
    DetermineIssuerCode
      ⟨"leaf", "Example CA", 0, 0, [], [], .otherKey, .otherAlg⟩ = 32 := by
  refine ⟨(determineIssuerCode_spec _).1.mpr (by decide), ?_, ?_, ?_⟩
  · exact (((determineIssuerCode_spec _).2 (by decide)).1).mpr (by decide)
  · exact (((determineIssuerCode_spec _).2 (by decide)).2.1).mpr (by decide)
  · exact (((determineIssuerCode_spec _).2 (by decide)).2.2).mpr (by decide)

/-- C6: `IsWeakKey` is true exactly for RSA keys with modulus bit
length below 2048 and ECDSA keys with curve bit size below 256, and
false for every other key type; in particular 1024-bit RSA is weak,
2048-bit RSA is not, a 224-bit curve is weak, a 256-bit curve is
not. -/
theorem isWeakKey_spec :
    (∀ c : Certificate, IsWeakKey c = true ↔
      ((∃ n, c.publicKey = .rsa n ∧ n < 2048) ∨
       (∃ b, c.publicKey = .ecdsa b ∧ b < 256))) ∧
    (∀ c : Certificate, c.publicKey = .rsa 1024 → IsWeakKey c = true) ∧
    (∀ c : Certificate, c.publicKey = .rsa 2048 → IsWeakKey c = false) ∧
    (∀ c : Certificate, c.publicKey = .ecdsa 224 → IsWeakKey c = true) ∧
    (∀ c : Certificate, c.publicKey = .ecdsa 256 → IsWeakKey c = false) := by
  refine ⟨fun c => ?_, fun c h => by simp [IsWeakKey, h],
    fun c h => by simp [IsWeakKey, h], fun c h => by simp [IsWeakKey, h],
    fun c h => by simp [IsWeakKey, h]⟩
  cases hc : c.publicKey with
  | rsa n => simp [IsWeakKey, hc]
  | ecdsa b => simp [IsWeakKey, hc]
  | otherKey => simp [IsWeakKey, hc]

/-- C6 witness: the four threshold instances at concrete
certificates. -/
theorem isWeakKey_spec_witness :
    IsWeakKey ⟨"a", "b", 0, 0, [], [], .rsa 1024, .otherAlg⟩ = true ∧
    IsWeakKey ⟨"a", "b", 0, 0, [], [], .rsa 2048, .otherAlg⟩ = false ∧
    IsWeakKey ⟨"a", "b", 0, 0, [], [], .ecdsa 224, .otherAlg⟩ = true ∧
    IsWeakKey ⟨"a", "b", 0, 0, [], [], .ecdsa 256, .otherAlg⟩ = false :=
  ⟨isWeakKey_spec.2.1 _ rfl, isWeakKey_spec.2.2.1 _ rfl,
   isWeakKey_spec.2.2.2.1 _ rfl, isWeakKey_spec.2.2.2.2 _ rfl⟩

/-- C8: `shouldSkipScan` returns true without mutating the state when
`now` is strictly before the entry's next-allowed time; when the entry
exists and its deadline has passed it deletes the entry (which then no
longer resolves) and returns false; with no entry it returns false
without mutation. -/
theorem shouldSkipScan_spec (m : BackoffMap) (dir : String) (now : Int) :
    (∀ t, bLookup m dir = some t → now < t →
      shouldSkipScan m dir now = (true, m)) ∧
    (∀ t, bLookup m dir = some t → t ≤ now →
      shouldSkipScan m dir now = (false, bErase m dir) ∧
      bLookup (shouldSkipScan m dir now).2 dir = none) ∧
    (bLookup m dir = none → shouldSkipScan m dir now = (false, m)) := by
  refine ⟨fun t ht hlt => ?_, fun t ht hle => ?_, fun h => ?_⟩
  · simp [shouldSkipScan, ht, hlt]
  · have hnlt : ¬ now < t := not_lt.mpr hle
    refine ⟨by simp [shouldSkipScan, ht, hnlt], ?_⟩
    simp [shouldSkipScan, ht, hnlt, bLookup_bErase_self]
  · simp [shouldSkipScan, h]

/-- C8 witness: the three behaviours at a concrete backoff map. -/
theorem shouldSkipScan_spec_witness :
    shouldSkipScan [("/certs", 5)] "/certs" 3 = (true, [("/certs", 5)]) ∧
    shouldSkipScan [("/certs", 5)] "/certs" 7 = (false, []) ∧
    bLookup (shouldSkipScan [("/certs", 5)] "/certs" 7).2 "/certs" = none ∧
    shouldSkipScan [] "/certs" 7 = (false, []) := by
  have h2 := (shouldSkipScan_spec [("/certs", 5)] "/certs" 7).2.1 5 (by decide)
    (by decide)
  refine ⟨(shouldSkipScan_spec [("/certs", 5)] "/certs" 3).1 5 (by decide)
      (by decide), ?_, h2.2, (shouldSkipScan_spec [] "/certs" 7).2.2 rfl⟩
  simpa [bErase] using h2.1

/-- The three total delays (delay plus jitter, i.e. next-allowed-time
minus `now`) produced by three consecutive `registerScanFailure` calls
on one directory, all at time `now` with jitter draws `j1`, `j2`,
`j3`. -/
def threeFailureDelays (m : BackoffMap) (dir : String) (now j1 j2 j3 : Int) :
    Int × Int × Int :=
  let d1 := failureDelay m dir now + j1
  let m1 := registerScanFailure m dir now j1
  let d2 := failureDelay m1 dir now + j2
  let m2 := registerScanFailure m1 dir now j2
  let d3 := failureDelay m2 dir now + j3
  (d1, d2, d3)

theorem registerScanFailure_bLookup (m : BackoffMap) (dir : String)
    (now j : Int) :
    bLookup (registerScanFailure m dir now j) dir =
      some (now + failureDelay m dir now + j) := by
  unfold registerScanFailure
  exact bLookup_bInsert_self _ _ _

/-- C7 counterexample: the delays of consecutive `RegisterFailure`
calls are NOT non-decreasing for every choice of jitter values and
call times.  First failure at time 0 with jitter 9s gives delay
30s + 9s = 39s; the second failure at time 39s finds the entry already
expired (`t.After(now)` is false at `t = now`), so the delay restarts
at the 30s base and, with jitter 0, the second total delay 30s is
strictly smaller than the first. -/
theorem backoff_delays_can_decrease :
    failureDelay (registerScanFailure [] "/certs" 0 (9 * nsPerSecond))
        "/certs" (39 * nsPerSecond) + 0 <
      failureDelay [] "/certs" 0 + 9 * nsPerSecond := by decide

/-- C7 (amended): the base delay is 30s when no unexpired backoff
exists, otherwise twice the previous entry's remaining time clamped to
the 10-minute ceiling, with the jitter (below 10s) added on top; and
for three consecutive failures registered at the same instant,
starting with no unexpired entry for the directory, the three
resulting delays are non-decreasing and capped at 10 minutes. -/
theorem backoff_three_immediate_failures_monotone
    (m : BackoffMap) (dir : String) (now j1 j2 j3 : Int)
    (h0 : ∀ t, bLookup m dir = some t → t ≤ now)
    (hj1 : 0 ≤ j1 ∧ j1 < maxJitter) (hj2 : 0 ≤ j2 ∧ j2 < maxJitter)
    (hj3 : 0 ≤ j3 ∧ j3 < maxJitter) :
    (threeFailureDelays m dir now j1 j2 j3).1 = baseBackoffDelay + j1 ∧
    (threeFailureDelays m dir now j1 j2 j3).2.1 =
      2 * (baseBackoffDelay + j1) + j2 ∧
    (threeFailureDelays m dir now j1 j2 j3).2.2 =
      2 * (2 * (baseBackoffDelay + j1) + j2) + j3 ∧
    (threeFailureDelays m dir now j1 j2 j3).1 ≤
      (threeFailureDelays m dir now j1 j2 j3).2.1 ∧
    (threeFailureDelays m dir now j1 j2 j3).2.1 ≤
      (threeFailureDelays m dir now j1 j2 j3).2.2 ∧
    (threeFailureDelays m dir now j1 j2 j3).1 ≤ MaxBackoff ∧
    (threeFailureDelays m dir now j1 j2 j3).2.1 ≤ MaxBackoff ∧
    (threeFailureDelays m dir now j1 j2 j3).2.2 ≤ MaxBackoff := by
  obtain ⟨hj1a, hj1b⟩ := hj1
  obtain ⟨hj2a, hj2b⟩ := hj2
  obtain ⟨hj3a, hj3b⟩ := hj3
  have hj1b' : j1 < 10 * nsPerSecond := hj1b
  have hj2b' : j2 < 10 * nsPerSecond := hj2b
  have e1 : failureDelay m dir now = baseBackoffDelay := by
    cases h : bLookup m dir with
    | none => simp [failureDelay, h]
    | some t =>
      have ht := not_lt.mpr (h0 t h)
      simp [failureDelay, h, ht]
  have l1 : bLookup (registerScanFailure m dir now j1) dir =
      some (now + baseBackoffDelay + j1) := by
    rw [registerScanFailure_bLookup, e1]
  have e2 : failureDelay (registerScanFailure m dir now j1) dir now =
      2 * (baseBackoffDelay + j1) := by
    have hlt : now < now + baseBackoffDelay + j1 := by
      simp only [baseBackoffDelay, nsPerSecond] at *
      omega
    have hnoclamp : ¬ (now + baseBackoffDelay + j1 - now) * 2 > MaxBackoff := by
      simp only [baseBackoffDelay, MaxBackoff, nsPerSecond] at *
      omega
    simp only [failureDelay, l1, hlt, if_true, hnoclamp, if_false]
    ring
  have l2 : bLookup (registerScanFailure (registerScanFailure m dir now j1)
      dir now j2) dir = some (now + 2 * (baseBackoffDelay + j1) + j2) := by
    rw [registerScanFailure_bLookup, e2]
  have e3 : failureDelay (registerScanFailure (registerScanFailure m dir now j1)
      dir now j2) dir now = 2 * (2 * (baseBackoffDelay + j1) + j2) := by
    have hlt : now < now + 2 * (baseBackoffDelay + j1) + j2 := by
      simp only [baseBackoffDelay, nsPerSecond] at *
      omega
    have hnoclamp :
        ¬ (now + 2 * (baseBackoffDelay + j1) + j2 - now) * 2 > MaxBackoff := by
      simp only [baseBackoffDelay, MaxBackoff, nsPerSecond] at *
      omega
    simp only [failureDelay, l2, hlt, if_true, hnoclamp, if_false]
    ring
  have hd : threeFailureDelays m dir now j1 j2 j3 =
      (baseBackoffDelay + j1, 2 * (baseBackoffDelay + j1) + j2,
        2 * (2 * (baseBackoffDelay + j1) + j2) + j3) := by
    simp only [threeFailureDelays]
    rw [e1, e2, e3]
  rw [hd]
  refine ⟨rfl, rfl, rfl, ?_, ?_, ?_, ?_, ?_⟩ <;>
    · simp only [baseBackoffDelay, MaxBackoff, maxJitter, nsPerSecond] at *
      omega

/-- C7 witness: three immediate failures with 1s jitter each, from an
empty backoff map: delays 31s, 63s, 127s. -/
theorem backoff_three_immediate_failures_monotone_witness :
    (threeFailureDelays [] "/certs" 0 nsPerSecond nsPerSecond nsPerSecond).1 ≤
      (threeFailureDelays [] "/certs" 0 nsPerSecond nsPerSecond
        nsPerSecond).2.1 ∧
    (threeFailureDelays [] "/certs" 0 nsPerSecond nsPerSecond
        nsPerSecond).2.2 ≤ MaxBackoff := by
  have h := backoff_three_immediate_failures_monotone [] "/certs" 0
    nsPerSecond nsPerSecond nsPerSecond
    (by intro t ht; simp [bLookup] at ht)
    (by constructor <;> decide) (by constructor <;> decide)
    (by constructor <;> decide)
  exact ⟨h.2.2.2.1, h.2.2.2.2.2.2.2⟩

theorem pemFindLeaf_fst (blocks : List PEMBlock) (path dirPath : String) :
    (pemFindLeaf blocks path dirPath).1 =
      match blocks.findSome? (fun b =>
          if b.blockType = "CERTIFICATE" then b.parseResult else none) with
      | some c => .ok c
      | none => .error "no valid certificate found" := by
  induction blocks with
  | nil => rfl
  | cons b rest ih =>
    by_cases hty : b.blockType = "CERTIFICATE"
    · cases hp : b.parseResult with
      | some c => simp [pemFindLeaf, List.findSome?_cons, hty, hp]
      | none => simp [pemFindLeaf, List.findSome?_cons, hty, hp, ih]
    · simp [pemFindLeaf, List.findSome?_cons, hty, ih]

/-- C4: for a PEM-family extension, leaf extraction returns the
certificate of the first sequential PEM block whose type is
`CERTIFICATE` and which parses successfully (later `CERTIFICATE`
blocks are ignored), and it fails with "no valid certificate found"
exactly when no block both has that type and parses. -/
theorem parseLeafCertificate_pem_first_valid (raw : RawContent)
    (ext path dirPath : String)
    (hext : ext = ".pem" ∨ ext = ".crt" ∨ ext = ".cer") :
    ((parseLeafCertificate raw ext path dirPath).1 =
      match raw.pemBlocks.findSome? (fun b =>
          if b.blockType = "CERTIFICATE" then b.parseResult else none) with
      | some c => .ok c
      | none => .error "no valid certificate found") ∧
    ((parseLeafCertificate raw ext path dirPath).1 =
        .error "no valid certificate found" ↔
      ∀ b ∈ raw.pemBlocks,
        ¬ (b.blockType = "CERTIFICATE" ∧ b.parseResult ≠ none)) := by
  have hne : ¬ ext = ".der" := by
    rcases hext with h | h | h <;> rw [h] <;> decide
  have hfst : (parseLeafCertificate raw ext path dirPath).1 =
      (pemFindLeaf raw.pemBlocks path dirPath).1 := by
    simp [parseLeafCertificate, hne]
  rw [hfst, pemFindLeaf_fst]
  refine ⟨rfl, ?_⟩
  cases hfs : raw.pemBlocks.findSome? (fun b =>
      if b.blockType = "CERTIFICATE" then b.parseResult else none) with
  | some c =>
    simp only [hfs]
    constructor
    · intro h; exact absurd h (by simp)
    · intro hall
      obtain ⟨b, hb, hfb⟩ := List.exists_of_findSome?_eq_some hfs
      by_cases hty : b.blockType = "CERTIFICATE"
      · exact absurd ⟨hty, by
          intro hn
          rw [hty] at hfb
          simp [hn] at hfb⟩ (hall b hb)
      · simp [hty] at hfb
  | none =>
    simp only [hfs]
    constructor
    · intro _ b hb hand
      have := List.findSome?_eq_none_iff.mp hfs b hb
      rw [if_pos hand.1] at this
      exact hand.2 this
    · intro _; trivial

/-- C4 witness: a file with an unparseable CERTIFICATE block followed
by two valid CERTIFICATE blocks yields exactly the first valid one,
and a file with no valid CERTIFICATE block fails with the exact error
string. -/
theorem parseLeafCertificate_pem_first_valid_witness :
    (parseLeafCertificate
      ⟨none, [⟨"RSA PRIVATE KEY", none⟩, ⟨"CERTIFICATE", none⟩,
        ⟨"CERTIFICATE", some ⟨"leaf", "ca", 0, 1, [], [0], .rsa 4096, .SHA256WithRSA⟩⟩,
        ⟨"CERTIFICATE", some ⟨"root", "root", 0, 9, [], [1], .rsa 4096, .SHA256WithRSA⟩⟩]⟩
      ".pem" "/certs/chain.pem" "/certs").1 =
      .ok ⟨"leaf", "ca", 0, 1, [], [0], .rsa 4096, .SHA256WithRSA⟩ ∧
    (parseLeafCertificate ⟨none, [⟨"RSA PRIVATE KEY", none⟩]⟩
      ".crt" "/certs/key.crt" "/certs").1 =
      .error "no valid certificate found" := by
  constructor
  · have h := (parseLeafCertificate_pem_first_valid
      ⟨none, [⟨"RSA PRIVATE KEY", none⟩, ⟨"CERTIFICATE", none⟩,
        ⟨"CERTIFICATE", some ⟨"leaf", "ca", 0, 1, [], [0], .rsa 4096, .SHA256WithRSA⟩⟩,
        ⟨"CERTIFICATE", some ⟨"root", "root", 0, 9, [], [1], .rsa 4096, .SHA256WithRSA⟩⟩]⟩
      ".pem" "/certs/chain.pem" "/certs" (Or.inl rfl)).1
    simpa using h
  · exact (parseLeafCertificate_pem_first_valid
      ⟨none, [⟨"RSA PRIVATE KEY", none⟩]⟩ ".crt" "/certs/key.crt" "/certs"
      (Or.inr (Or.inl rfl))).2.mpr (by simp)

theorem cLookup_cInsert_self (m : CacheTable) (p : String)
    (e : CachedCertMeta) : cLookup (cInsert m p e) p = some e := by
  simp [cInsert, cLookup]

theorem cLookup_filter_ne (m : CacheTable) {p q : String} (h : q ≠ p) :
    cLookup (m.filter (fun r => !(decide (r.1 = q)))) p = cLookup m p := by
  induction m with
  | nil => rfl
  | cons r rest ih =>
    by_cases hr : r.1 = q
    · have hrp : ¬ r.1 = p := by rw [hr]; exact h
      simp [List.filter_cons, cLookup, hr, hrp, ih, h]
    · by_cases hp : r.1 = p
      · simp [List.filter_cons, cLookup, hr, hp, Ne.symm h]
      · simp [List.filter_cons, cLookup, hr, hp, Ne.symm h, ih]

theorem cLookup_cInsert_ne (m : CacheTable) {p q : String}
    (e : CachedCertMeta) (h : q ≠ p) :
    cLookup (cInsert m q e) p = cLookup m p := by
  simp only [cInsert, cLookup, h, if_neg (fun hq => h hq)]
  exact cLookup_filter_ne m h

theorem cLookup_eq_none_of_not_mem (m : CacheTable) (p : String)
    (h : p ∉ m.map Prod.fst) : cLookup m p = none := by
  induction m with
  | nil => rfl
  | cons r rest ih =>
    simp only [List.map_cons, List.mem_cons] at h
    push_neg at h
    have hr : ¬ r.1 = p := fun hq => h.1 hq.symm
    simp [cLookup, hr, ih h.2]

/-- The Go-map reading of folding `cInsert` over a key-distinct entry
list: keys of the list resolve to their entry, other keys fall through
to the accumulator. -/
theorem cLookup_foldl_cInsert (t : CacheTable) (acc : CacheTable)
    (p : String) (hkeys : (t.map Prod.fst).Nodup) :
    cLookup (t.foldl (fun a pe => cInsert a pe.1 pe.2) acc) p =
      match cLookup t p with
      | some e => some e
      | none => cLookup acc p := by
  induction t generalizing acc with
  | nil => simp [cLookup]
  | cons qe rest ih =>
    simp only [List.map_cons, List.nodup_cons] at hkeys
    rw [List.foldl_cons, ih _ hkeys.2]
    by_cases hpq : qe.1 = p
    · have hnone : cLookup rest p = none := by
        apply cLookup_eq_none_of_not_mem
        rw [← hpq]
        exact hkeys.1
      rw [hnone]
      simp [cLookup, hpq, hpq ▸ cLookup_cInsert_self acc qe.1 qe.2]
    · have : cLookup ((qe :: rest) : CacheTable) p = cLookup rest p := by
        simp [cLookup, hpq]
      rw [this, cLookup_cInsert_ne acc qe.2 hpq]

theorem decodeByte_encodeByte {b : Nat} (h : b < 256) :
    decodeByte (encodeByte b) = some b := by
  have h01 : (0 : Int) ≤ (b : Int) ∧ (b : Int) < 256 := by
    exact ⟨Int.natCast_nonneg b, by exact_mod_cast h⟩
  simp [decodeByte, encodeByte, h01]

theorem mapOption_decodeByte_encode {fp : List Nat}
    (hwf : ∀ b ∈ fp, b < 256) :
    mapOption decodeByte (fp.map encodeByte) = some fp := by
  induction fp with
  | nil => rfl
  | cons b rest ih =>
    have hb := hwf b (List.mem_cons_self b rest)
    have hrest := ih (fun x hx => hwf x (List.mem_cons_of_mem b hx))
    simp [mapOption, decodeByte_encodeByte hb, hrest]

theorem decodeFingerprint_encode {fp : List Nat} (hlen : fp.length = 32)
    (hwf : ∀ b ∈ fp, b < 256) :
    decodeFingerprint (fp.map encodeByte) = some fp := by
  simp [decodeFingerprint, mapOption_decodeByte_encode hwf,
    List.take_of_length_le (le_of_eq hlen), hlen]

theorem decodeMeta_encodeMeta {e : CachedCertMeta}
    (hlen : e.fingerprint.length = 32) (hwf : ∀ b ∈ e.fingerprint, b < 256) :
    decodeMeta (encodeMeta e) = some e := by
  simp [decodeMeta, encodeMeta, jField,
    decodeFingerprint_encode hlen hwf]

theorem decodeTable_save (t : CacheTable)
    (hwf : ∀ pe ∈ t, pe.2.fingerprint.length = 32 ∧
      ∀ b ∈ pe.2.fingerprint, b < 256) :
    decodeTable (Cache.Save t) = some t := by
  induction t with
  | nil => rfl
  | cons pe rest ih =>
    have hpe := hwf pe (List.mem_cons_self pe rest)
    have hrest := ih (fun x hx => hwf x (List.mem_cons_of_mem pe hx))
    simp only [Cache.Save, decodeTable, List.map_cons] at hrest ⊢
    simp [mapOption, decodeMeta_encodeMeta hpe.1 hpe.2, hrest]

/-- C9: `Save` followed by `Load` into an empty table reproduces an
equal path-to-entry mapping; in particular the 32-byte fingerprint of
every entry comes back byte for byte.  The hypotheses state what the
Go types enforce: the table is a map (distinct keys) and each
fingerprint is a `[32]byte`. -/
theorem cache_save_load_roundtrip (t : CacheTable)
    (hkeys : (t.map Prod.fst).Nodup)
    (hwf : ∀ pe ∈ t, pe.2.fingerprint.length = 32 ∧
      ∀ b ∈ pe.2.fingerprint, b < 256) :
    ∀ path, cLookup (Cache.Load [] (.content (Cache.Save t))) path =
      cLookup t path := by
  intro path
  rw [show Cache.Load [] (.content (Cache.Save t)) =
      t.foldl (fun a pe => cInsert a pe.1 pe.2) [] by
    simp [Cache.Load, decodeTable_save t hwf]]
  rw [cLookup_foldl_cInsert t [] path hkeys]
  cases h : cLookup t path <;> simp [cLookup]

/-- C9 witness: a two-entry table with full 32-byte fingerprints
round-trips to the same mapping. -/
theorem cache_save_load_roundtrip_witness :
    cLookup (Cache.Load [] (.content (Cache.Save
      [("/certs/a.pem", ⟨List.replicate 32 7, 5, 9⟩),
       ("/certs/b.pem", ⟨(List.range 32).map (· + 1), 6, 10⟩)])))
      "/certs/b.pem" =
      some ⟨(List.range 32).map (· + 1), 6, 10⟩ := by
  have h := cache_save_load_roundtrip
    [("/certs/a.pem", ⟨List.replicate 32 7, 5, 9⟩),
     ("/certs/b.pem", ⟨(List.range 32).map (· + 1), 6, 10⟩)]
    (by decide) (by decide) "/certs/b.pem"
  simpa [cLookup] using h

/-- C10: when reading the cache file fails, `Load` leaves the table
exactly as it was; the reset to the empty table happens only when the
file was read but its JSON failed to decode; on a successful decode
the entries are merged into the existing map. -/
theorem cache_load_error_handling :
    (∀ m : CacheTable, Cache.Load m .readError = m) ∧
    (∀ (m : CacheTable) (j : Json), decodeTable j = none →
      Cache.Load m (.content j) = []) ∧
    (∀ (m : CacheTable) (j : Json) entries, decodeTable j = some entries →
      Cache.Load m (.content j) =
        entries.foldl (fun a pe => cInsert a pe.1 pe.2) m) := by
  refine ⟨fun m => rfl, fun m j h => ?_, fun m j entries h => ?_⟩
  · simp [Cache.Load, h]
  · simp [Cache.Load, h]

/-- C10 witness: a read error preserves a non-empty table, and a
non-object JSON payload resets it. -/
theorem cache_load_error_handling_witness :
    Cache.Load [("/certs/a.pem", ⟨[1], 2, 3⟩)] .readError =
      [("/certs/a.pem", ⟨[1], 2, 3⟩)] ∧
    Cache.Load [("/certs/a.pem", ⟨[1], 2, 3⟩)] (.content (.num 0)) = [] :=
  ⟨cache_load_error_handling.1 _,
   cache_load_error_handling.2.1 _ (.num 0) rfl⟩

/-- The metric writes that sit behind the
`!dryRun && s.shouldWriteMetrics()` guards of `processCertificate` and
`ProcessDirectory`: the per-certificate gauges and counters and the
per-directory last-scan timestamp. -/
def MetricEvent.isSuppressible : MetricEvent → Bool
  | .certScanDuration _ => false
  | .certParseErrors _ => false
  | .certFilesTotal _ => false
  | .certsParsedTotal _ => false
  | .labelsTruncated => false
  | _ => true

theorem sanitizeLabelValue_events (v : String) :
    ∀ e ∈ (sanitizeLabelValue v).2, e = MetricEvent.labelsTruncated := by
  intro e he
  unfold sanitizeLabelValue at he
  by_cases h : v.trim.length > MaxLabelLength
  · simp [h] at he
    exact he
  · simp [h] at he

theorem processCertificate_events_suppressed (cfg : Config)
    (c : Certificate) (name : String) (seen : SeenMap) (hostname : String)
    (dryRun : Bool) (now : Int)
    (h : dryRun = true ∨ cfg.dryRun = true) :
    ∀ e ∈ (processCertificate cfg c name seen hostname dryRun now).2,
      e.isSuppressible = false := by
  intro e he
  have hguard : (!dryRun && shouldWriteMetrics cfg) = false := by
    rcases h with h | h <;> simp [h, shouldWriteMetrics]
  simp only [processCertificate, hguard, Bool.false_eq_true, if_false,
    List.append_nil] at he
  rcases List.mem_append.mp he with he' | he'
  · rcases List.mem_append.mp he' with he'' | he''
    · rcases List.mem_append.mp he'' with h3 | h3
      · rw [sanitizeLabelValue_events _ _ h3]; rfl
      · rw [sanitizeLabelValue_events _ _ h3]; rfl
    · rw [sanitizeLabelValue_events _ _ he'']; rfl
  · by_cases hd : c.dnsNames.length > 0
    · simp only [hd, if_true] at he'
      rw [sanitizeLabelValue_events _ _ he']; rfl
    · simp only [hd, if_false] at he'
      simp at he'

theorem pemFindLeaf_events (blocks : List PEMBlock) (path dirPath : String) :
    ∀ e ∈ (pemFindLeaf blocks path dirPath).2,
      e.isSuppressible = false := by
  induction blocks with
  | nil => intro e he; simp [pemFindLeaf] at he
  | cons b rest ih =>
    intro e he
    by_cases hty : b.blockType = "CERTIFICATE"
    · cases hp : b.parseResult with
      | some c =>
        simp [pemFindLeaf, hty, hp] at he
        rw [he]; rfl
      | none =>
        simp only [pemFindLeaf, hty, if_true, hp, List.mem_cons] at he
        rcases he with he | he
        · rw [he]; rfl
        · exact ih e he
    · simp only [pemFindLeaf, hty, if_false] at he
      exact ih e he

theorem parseLeafCertificate_events (raw : RawContent)
    (ext path dirPath : String) :
    ∀ e ∈ (parseLeafCertificate raw ext path dirPath).2,
      e.isSuppressible = false := by
  intro e he
  by_cases hd : ext = ".der"
  · cases hp : raw.derParse with
    | none => simp [parseLeafCertificate, hd, hp] at he; rw [he]; rfl
    | some c => simp [parseLeafCertificate, hd, hp] at he; rw [he]; rfl
  · simp only [parseLeafCertificate, hd, if_false] at he
    exact pemFindLeaf_events raw.pemBlocks path dirPath e he

theorem stepEntry_events_suppressed (cfg : Config) (dryRun : Bool)
    (dirPath hostname : String) (now : Int) (acc : ScanAcc) (en : WalkEntry)
    (h : dryRun = true ∨ cfg.dryRun = true) :
    ∀ e ∈ (stepEntry cfg dryRun dirPath hostname now acc en).events,
      e ∈ acc.events ∨ e.isSuppressible = false := by
  intro e he
  cases en with
  | errEntry p => exact Or.inl he
  | dirEntry n p => exact Or.inl he
  | fileEntry f =>
    simp only [stepEntry] at he
    by_cases hx : ¬ ((goToLower (filepathExt f.name)) = ".pem" ∨
        (goToLower (filepathExt f.name)) = ".crt" ∨
        (goToLower (filepathExt f.name)) = ".cer" ∨
        (goToLower (filepathExt f.name)) = ".der")
    · rw [if_pos hx] at he
      exact Or.inl he
    · rw [if_neg hx] at he
      cases hst : f.statResult with
      | none =>
        simp only [Cache.GetEntryAtomic, hst] at he
        simp only [List.mem_append, List.mem_singleton] at he
        rcases he with he | he
        · exact Or.inl he
        · right; rw [he]; rfl
      | some info =>
        simp only [Cache.GetEntryAtomic, hst] at he
        have hstep : ∀ ev ∈ (stepEntry.stepRead cfg dryRun dirPath hostname now
            { acc with events := acc.events ++ [.certFilesTotal dirPath] }
            f info (goToLower (filepathExt f.name))).events,
            ev ∈ acc.events ∨ ev.isSuppressible = false := by
          intro ev hev
          simp only [stepEntry.stepRead] at hev
          by_cases hro : ¬ f.readOk
          · rw [if_pos hro] at hev
            simp only [List.mem_append, List.mem_singleton] at hev
            rcases hev with (hev | hev) | hev
            · exact Or.inl hev
            · right; rw [hev]; rfl
            · right; rw [hev]; rfl
          · rw [if_neg hro] at hev
            cases hres : (parseLeafCertificate f.content
                (goToLower (filepathExt f.name)) f.path dirPath).1 with
            | error msg =>
              simp only [hres] at hev
              simp only [List.mem_append, List.mem_singleton] at hev
              rcases hev with (hev | hev) | hev
              · exact Or.inl hev
              · right; rw [hev]; rfl
              · right
                exact parseLeafCertificate_events _ _ _ _ ev hev
            | ok leaf =>
              simp only [hres] at hev
              simp only [List.mem_append, List.mem_singleton] at hev
              rcases hev with ((hev | hev) | hev) | hev
              · exact Or.inl hev
              · right; rw [hev]; rfl
              · right
                exact parseLeafCertificate_events _ _ _ _ ev hev
              · right
                exact processCertificate_events_suppressed cfg leaf f.name
                  _ hostname dryRun now h ev hev
        cases hl : cLookup acc.cache f.path with
        | none =>
          simp only [hl] at he
          exact hstep e he
        | some cached =>
          simp only [hl] at he
          by_cases hm : cached.modTime = info.modTime ∧ cached.size = info.size
          · rw [if_pos hm] at he
            simp only [List.mem_append, List.mem_singleton] at he
            rcases he with he | he
            · exact Or.inl he
            · right; rw [he]; rfl
          · rw [if_neg hm] at he
            exact hstep e he

theorem walkFold_events_suppressed (cfg : Config) (dryRun : Bool)
    (dirPath hostname : String) (now : Int) (entries : List WalkEntry)
    (acc : ScanAcc) (h : dryRun = true ∨ cfg.dryRun = true) :
    ∀ e ∈ (walkFold cfg dryRun dirPath hostname now acc entries).events,
      e ∈ acc.events ∨ e.isSuppressible = false := by
  induction entries generalizing acc with
  | nil => intro e he; exact Or.inl he
  | cons en rest ih =>
    intro e he
    rcases ih (stepEntry cfg dryRun dirPath hostname now acc en) e he with
      h1 | h1
    · exact stepEntry_events_suppressed cfg dryRun dirPath hostname now acc
        en h e h1
    · exact Or.inr h1

theorem processCertificate_fst (cfg : Config) (c : Certificate)
    (name : String) (seen : SeenMap) (hostname : String) (dryRun : Bool)
    (now : Int) :
    (processCertificate cfg c name seen hostname dryRun now).1 =
      (seenIncr seen (sha256Sum c.raw)).1 := rfl

/-- The scan state of a pass without the emitted metric events: the
duplicate map, the cache, and the instrumentation counters. -/
structure ScanCore where
  seen : SeenMap
  cache : CacheTable
  reads : Nat
  parses : Nat
  cacheWrites : Nat
deriving DecidableEq, Repr

def coreOf (acc : ScanAcc) : ScanCore :=
  ⟨acc.seen, acc.cache, acc.reads, acc.parses, acc.cacheWrites⟩

/-- The transition `stepEntry` performs on the event-free scan state.
It does not take the `dryRun` flag, the hostname or the clock: the
walk body consults them only to emit metrics and log lines. -/
def stepCore (cfg : Config) (dirPath : String) (c : ScanCore)
    (en : WalkEntry) : ScanCore :=
  match en with
  | .errEntry _ => c
  | .dirEntry _ _ => c
  | .fileEntry f =>
    let ext := goToLower (filepathExt f.name)
    if ¬ (ext = ".pem" ∨ ext = ".crt" ∨ ext = ".cer" ∨ ext = ".der") then c
    else
      match f.statResult with
      | none => c
      | some info =>
        match cLookup c.cache f.path with
        | some cached =>
          if cached.modTime = info.modTime ∧ cached.size = info.size then c
          else readCore cfg dirPath c f info ext
        | none => readCore cfg dirPath c f info ext
  where
    readCore (cfg : Config) (dirPath : String) (c : ScanCore)
        (f : WalkFile) (info : FileStat) (ext : String) : ScanCore :=
      let c := { c with reads := c.reads + 1 }
      if ¬ f.readOk then c
      else
        let c := { c with parses := c.parses + 1 }
        match (parseLeafCertificate f.content ext f.path dirPath).1 with
        | .error _ => c
        | .ok leaf =>
          { c with
            seen := (seenIncr c.seen (sha256Sum leaf.raw)).1,
            cache := Cache.SetEntryAtomic c.cache f.path (sha256Sum leaf.raw) info,
            cacheWrites := c.cacheWrites + 1 }

theorem stepEntry_core_eq (cfg : Config) (dryRun : Bool)
    (dirPath hostname : String) (now : Int) (acc : ScanAcc)
    (en : WalkEntry) :
    coreOf (stepEntry cfg dryRun dirPath hostname now acc en) =
      stepCore cfg dirPath (coreOf acc) en := by
  cases en with
  | errEntry p => rfl
  | dirEntry n p => rfl
  | fileEntry f =>
    simp only [stepEntry, stepCore]
    by_cases hx : ¬ ((goToLower (filepathExt f.name)) = ".pem" ∨
        (goToLower (filepathExt f.name)) = ".crt" ∨
        (goToLower (filepathExt f.name)) = ".cer" ∨
        (goToLower (filepathExt f.name)) = ".der")
    · rw [if_pos hx, if_pos hx]
    · rw [if_neg hx, if_neg hx]
      cases hst : f.statResult with
      | none => rfl
      | some info =>
        have hread :
            coreOf (stepEntry.stepRead cfg dryRun dirPath hostname now
              { acc with events := acc.events ++ [.certFilesTotal dirPath] }
              f info (goToLower (filepathExt f.name))) =
            stepCore.readCore cfg dirPath (coreOf acc) f info
              (goToLower (filepathExt f.name)) := by
          simp only [stepEntry.stepRead, stepCore.readCore]
          by_cases hro : ¬ f.readOk
          · rw [if_pos hro, if_pos hro]; rfl
          · rw [if_neg hro, if_neg hro]
            cases hres : (parseLeafCertificate f.content (goToLower (filepathExt f.name))
                f.path dirPath).1 with
            | error msg => rfl
            | ok leaf => simp [coreOf, processCertificate_fst]
        simp only [Cache.GetEntryAtomic, coreOf] at hread ⊢
        cases hl : cLookup acc.cache f.path with
        | none => exact hread
        | some cached =>
          by_cases hm : cached.modTime = info.modTime ∧ cached.size = info.size
          · simp [hm]
          · simp only [hm, if_false]
            exact hread

theorem walkFold_core_eq (cfg : Config) (dryRun : Bool)
    (dirPath hostname : String) (now : Int) (entries : List WalkEntry)
    (acc : ScanAcc) :
    coreOf (walkFold cfg dryRun dirPath hostname now acc entries) =
      entries.foldl (stepCore cfg dirPath) (coreOf acc) := by
  induction entries generalizing acc with
  | nil => rfl
  | cons en rest ih =>
    rw [walkFold, List.foldl_cons, ← stepEntry_core_eq cfg dryRun dirPath
      hostname now acc en]
    exact ih _

/-- C2 counterexample: an error reported to the walk callback mid-walk
(an `errEntry`) does NOT register a backoff failure: the callback
swallows the error (`if err != nil { return nil }`), `WalkDir` returns
`nil`, and the directory's backoff map stays empty. -/
theorem walk_error_registers_no_backoff :
    bLookup (ProcessDirectory ⟨false, 45, false⟩ [] [] "/certs" false
      (some true) [.errEntry "/certs/sub"] "host" 0 0).backoff "/certs" =
      none := by decide

/-- C2 (amended): the walk callback discards every error handed to it,
so `filepath.WalkDir` never returns an error and no backoff failure is
ever registered for a mid-walk I/O failure; when the root stats as a
directory, the backoff state after `ProcessDirectory` is exactly the
state `shouldSkipScan` left, and the partial fingerprint-count map
gathered by the walk is still returned to the caller. -/
theorem processDirectory_walkdir_error_spec :
    (∀ entries : List WalkEntry, walkDirResult entries = none) ∧
    (∀ (cfg : Config) (cache : CacheTable) (backoff : BackoffMap)
        (dirPath : String) (dryRun : Bool) (entries : List WalkEntry)
        (hostname : String) (now jitter : Int) (b1 : BackoffMap),
      shouldSkipScan backoff dirPath now = (false, b1) →
      (ProcessDirectory cfg cache backoff dirPath dryRun (some true)
          entries hostname now jitter).backoff = b1 ∧
      (ProcessDirectory cfg cache backoff dirPath dryRun (some true)
          entries hostname now jitter).seen =
        (walkFold cfg dryRun dirPath hostname now
          ⟨[], [], cache, 0, 0, 0⟩ entries).seen) := by
  have hnone : ∀ entries : List WalkEntry, walkDirResult entries = none := by
    intro entries
    apply List.findSome?_eq_none_iff.mpr
    intro e he
    cases e with
    | errEntry p => rfl
    | fileEntry f => rfl
    | dirEntry n p =>
      simp only [walkCallbackRet]
      by_cases hn : goToLower n = "old" ∨ goToLower n = "working"
      · rw [if_pos hn]
      · rw [if_neg hn]
  refine ⟨hnone, ?_⟩
  intro cfg cache backoff dirPath dryRun entries hostname now jitter b1 hss
  simp only [ProcessDirectory, hss]
  have hroot : ¬ (some true ≠ some true) := by simp
  rw [if_neg hroot]
  rw [hnone entries]
  exact ⟨rfl, rfl⟩

/-- C2 witness: a mid-walk error entry with an unrelated backoff entry
present: the backoff map comes back exactly as `shouldSkipScan` left
it, with no entry for the scanned directory. -/
theorem processDirectory_walkdir_error_spec_witness :
    (ProcessDirectory ⟨false, 45, false⟩ [] [("other", 5)] "/certs" false
      (some true) [.errEntry "/certs/x"] "host" 9 0).backoff =
      [("other", 5)] :=
  (processDirectory_walkdir_error_spec.2 ⟨false, 45, false⟩ [] [("other", 5)]
    "/certs" false [.errEntry "/certs/x"] "host" 9 0 [("other", 5)]
    (by decide)).1

/-- C3 counterexample: over an unchanged tree containing one
certificate-extension file whose content fails extraction (a PEM with
no parseable CERTIFICATE block), the first pass writes no cache entry,
so repeating the pass reads (and attempts to parse) the file again:
the second pass performs one file read and one extraction attempt, not
zero. -/
theorem unchanged_tree_repeat_pass_rereads_unparsed_file :
    (ProcessDirectory ⟨false, 45, false⟩
      (ProcessDirectory ⟨false, 45, false⟩ [] [] "/certs" false (some true)
        [.fileEntry ⟨"/certs/bad.pem", "bad.pem", some ⟨100, 10⟩, true,
          ⟨none, [⟨"CERTIFICATE", none⟩]⟩⟩] "host" 0 0).cache
      (ProcessDirectory ⟨false, 45, false⟩ [] [] "/certs" false (some true)
        [.fileEntry ⟨"/certs/bad.pem", "bad.pem", some ⟨100, 10⟩, true,
          ⟨none, [⟨"CERTIFICATE", none⟩]⟩⟩] "host" 0 0).backoff
      "/certs" false (some true)
      [.fileEntry ⟨"/certs/bad.pem", "bad.pem", some ⟨100, 10⟩, true,
        ⟨none, [⟨"CERTIFICATE", none⟩]⟩⟩] "host" 0 0).reads = 1 := by decide

theorem stepCore_cache_match (cfg : Config) (dirPath : String)
    (c : ScanCore) (f : WalkFile) (info : FileStat)
    (hmatch : ∀ info', f.statResult = some info' →
      ∃ cached, cLookup c.cache f.path = some cached ∧
        cached.modTime = info'.modTime ∧ cached.size = info'.size)
    (hst : f.statResult = some info) :
    stepCore cfg dirPath c (.fileEntry f) = c := by
  obtain ⟨cached, hl, hmt, hsz⟩ := hmatch info hst
  simp only [stepCore, hst, hl]
  by_cases hx : ¬ ((goToLower (filepathExt f.name)) = ".pem" ∨
      (goToLower (filepathExt f.name)) = ".crt" ∨
      (goToLower (filepathExt f.name)) = ".cer" ∨
      (goToLower (filepathExt f.name)) = ".der")
  · rw [if_pos hx]
  · rw [if_neg hx]
    simp [hmt, hsz]

theorem foldl_stepCore_all_cached (cfg : Config) (dirPath : String)
    (entries : List WalkEntry) (c : ScanCore)
    (h : ∀ f : WalkFile, WalkEntry.fileEntry f ∈ entries →
      ((goToLower (filepathExt f.name)) = ".pem" ∨
       (goToLower (filepathExt f.name)) = ".crt" ∨
       (goToLower (filepathExt f.name)) = ".cer" ∨
       (goToLower (filepathExt f.name)) = ".der") →
      ∀ info, f.statResult = some info →
      ∃ cached, cLookup c.cache f.path = some cached ∧
        cached.modTime = info.modTime ∧ cached.size = info.size) :
    entries.foldl (stepCore cfg dirPath) c = c := by
  induction entries with
  | nil => rfl
  | cons en rest ih =>
    have hstep : stepCore cfg dirPath c en = c := by
      cases en with
      | errEntry p => rfl
      | dirEntry n p => rfl
      | fileEntry f =>
        by_cases hx : (goToLower (filepathExt f.name)) = ".pem" ∨
            (goToLower (filepathExt f.name)) = ".crt" ∨
            (goToLower (filepathExt f.name)) = ".cer" ∨
            (goToLower (filepathExt f.name)) = ".der"
        · cases hst : f.statResult with
          | none => simp only [stepCore, hst]; rw [if_neg (not_not.mpr hx)]
          | some info =>
            exact stepCore_cache_match cfg dirPath c f info
              (fun info' hi => h f (List.mem_cons_self _ _) hx info' hi) hst
        · cases hst : f.statResult with
          | none => simp only [stepCore, hst]; rw [if_pos hx]
          | some info => simp only [stepCore, hst]; rw [if_pos hx]
    rw [List.foldl_cons, hstep]
    exact ih (fun f hf hext info hi =>
      h f (List.mem_cons_of_mem _ hf) hext info hi)

/-- C3 (amended): a file whose cached entry exists and matches the
fresh stat's modTime and size is skipped with no file read, no
extraction attempt, no cache mutation and no change to the duplicate
map; consequently a pass over a tree in which EVERY
certificate-extension file that stats successfully has a matching
cache entry (as after a prior pass in which every such file was
successfully extracted) performs zero file reads, zero extraction
attempts and zero cache mutations.  (Files that failed extraction get
no cache entry and are re-read on the next pass — see the
counterexample — so the unconditional claim fails.) -/
theorem cache_match_skip_spec :
    (∀ (cfg : Config) (dryRun : Bool) (dirPath hostname : String)
        (now : Int) (acc : ScanAcc) (f : WalkFile) (info : FileStat)
        (cached : CachedCertMeta),
      f.statResult = some info →
      cLookup acc.cache f.path = some cached →
      cached.modTime = info.modTime → cached.size = info.size →
      (stepEntry cfg dryRun dirPath hostname now acc (.fileEntry f)).seen =
          acc.seen ∧
      (stepEntry cfg dryRun dirPath hostname now acc (.fileEntry f)).cache =
          acc.cache ∧
      (stepEntry cfg dryRun dirPath hostname now acc (.fileEntry f)).reads =
          acc.reads ∧
      (stepEntry cfg dryRun dirPath hostname now acc (.fileEntry f)).parses =
          acc.parses ∧
      (stepEntry cfg dryRun dirPath hostname now acc
          (.fileEntry f)).cacheWrites = acc.cacheWrites) ∧
    (∀ (cfg : Config) (cache : CacheTable) (backoff : BackoffMap)
        (dirPath : String) (dryRun : Bool) (rootIsDir : Option Bool)
        (entries : List WalkEntry) (hostname : String) (now jitter : Int),
      (∀ f : WalkFile, WalkEntry.fileEntry f ∈ entries →
        ((goToLower (filepathExt f.name)) = ".pem" ∨
         (goToLower (filepathExt f.name)) = ".crt" ∨
         (goToLower (filepathExt f.name)) = ".cer" ∨
         (goToLower (filepathExt f.name)) = ".der") →
        ∀ info, f.statResult = some info →
        ∃ cached, cLookup cache f.path = some cached ∧
          cached.modTime = info.modTime ∧ cached.size = info.size) →
      (ProcessDirectory cfg cache backoff dirPath dryRun rootIsDir entries
          hostname now jitter).reads = 0 ∧
      (ProcessDirectory cfg cache backoff dirPath dryRun rootIsDir entries
          hostname now jitter).parses = 0 ∧
      (ProcessDirectory cfg cache backoff dirPath dryRun rootIsDir entries
          hostname now jitter).cache = cache ∧
      (ProcessDirectory cfg cache backoff dirPath dryRun rootIsDir entries
          hostname now jitter).cacheWrites = 0) := by
  constructor
  · intro cfg dryRun dirPath hostname now acc f info cached hst hl hmt hsz
    have hcore := stepEntry_core_eq cfg dryRun dirPath hostname now acc
      (.fileEntry f)
    rw [stepCore_cache_match cfg dirPath (coreOf acc) f info
      (fun info' hi => by
        rw [hst] at hi
        injection hi with hi
        exact ⟨cached, hl, hi ▸ hmt, hi ▸ hsz⟩) hst] at hcore
    exact ⟨congrArg ScanCore.seen hcore, congrArg ScanCore.cache hcore,
      congrArg ScanCore.reads hcore, congrArg ScanCore.parses hcore,
      congrArg ScanCore.cacheWrites hcore⟩
  · intro cfg cache backoff dirPath dryRun rootIsDir entries hostname now
      jitter h
    rcases hss : shouldSkipScan backoff dirPath now with ⟨sk, b1⟩
    cases sk
    · by_cases hroot : rootIsDir = some true
      · subst hroot
        have hcore := walkFold_core_eq cfg dryRun dirPath hostname now entries
          ⟨[], [], cache, 0, 0, 0⟩
        simp only [coreOf] at hcore
        rw [foldl_stepCore_all_cached cfg dirPath entries
          ⟨[], cache, 0, 0, 0⟩ h] at hcore
        simp only [ProcessDirectory, hss]
        rw [if_neg (by simp : ¬ (some true ≠ some true))]
        exact ⟨congrArg ScanCore.reads hcore, congrArg ScanCore.parses hcore,
          congrArg ScanCore.cache hcore, congrArg ScanCore.cacheWrites hcore⟩
      · simp [ProcessDirectory, hss, hroot]
    · simp [ProcessDirectory, hss]

/-- C3 witness: a tree whose single certificate file has a matching
cache entry: the pass performs zero reads, zero extraction attempts
and leaves the cache untouched. -/
theorem cache_match_skip_spec_witness :
    (ProcessDirectory ⟨false, 45, false⟩
      [("/certs/a.pem", ⟨[1, 2, 3], 100, 10⟩)] [] "/certs" false (some true)
      [.fileEntry ⟨"/certs/a.pem", "a.pem", some ⟨100, 10⟩, true,
        ⟨none, [⟨"CERTIFICATE", none⟩]⟩⟩] "host" 0 0).reads = 0 ∧
    (ProcessDirectory ⟨false, 45, false⟩
      [("/certs/a.pem", ⟨[1, 2, 3], 100, 10⟩)] [] "/certs" false (some true)
      [.fileEntry ⟨"/certs/a.pem", "a.pem", some ⟨100, 10⟩, true,
        ⟨none, [⟨"CERTIFICATE", none⟩]⟩⟩] "host" 0 0).cache =
      [("/certs/a.pem", ⟨[1, 2, 3], 100, 10⟩)] := by
  have h := cache_match_skip_spec.2 ⟨false, 45, false⟩
    [("/certs/a.pem", ⟨[1, 2, 3], 100, 10⟩)] [] "/certs" false (some true)
    [.fileEntry ⟨"/certs/a.pem", "a.pem", some ⟨100, 10⟩, true,
      ⟨none, [⟨"CERTIFICATE", none⟩]⟩⟩] "host" 0 0
    (by
      intro f hf hext info hi
      simp only [List.mem_singleton, WalkEntry.fileEntry.injEq] at hf
      subst hf
      injection hi with hi
      subst hi
      exact ⟨⟨[1, 2, 3], 100, 10⟩, by decide, rfl, rfl⟩)
  exact ⟨h.1, h.2.2.1⟩

/-- C1 counterexample: a dry-run scan of a directory holding one valid
certificate file still writes metrics: the per-directory files-seen
counter (and likewise certs-parsed and scan-duration) is emitted, so
metric emission is NOT entirely suppressed under dry-run. -/
theorem dryRun_scan_still_emits_directory_metrics :
    MetricEvent.certFilesTotal "/certs" ∈
      (ProcessDirectory ⟨false, 45, false⟩ [] [] "/certs" true (some true)
        [.fileEntry ⟨"/certs/a.pem", "a.pem", some ⟨100, 10⟩, true,
          ⟨none, [⟨"CERTIFICATE",
            some ⟨"cn", "ca", 0, 10, [], [1], .rsa 4096, .SHA256WithRSA⟩⟩]⟩⟩]
        "host" 0 0).events := by decide

/-- C1 (amended): with `dryRun` set (or metric writes disabled via
`cfg.DryRun`), no per-certificate gauge or counter and no last-scan
timestamp is written — but the per-directory files-seen, certs-parsed,
parse-error, scan-duration and label-truncation metrics are still
emitted.  Parsing, classification and cache updates still happen: the
duplicate map, cache, backoff state and read/extraction/cache-write
counts of the scan are identical to the same scan with `dryRun`
off. -/
theorem processDirectory_dryRun_suppression
    (cfg : Config) (cache : CacheTable) (backoff : BackoffMap)
    (dirPath : String) (dryRun : Bool) (rootIsDir : Option Bool)
    (entries : List WalkEntry) (hostname : String) (now jitter : Int)
    (h : dryRun = true ∨ cfg.dryRun = true) :
    (∀ e ∈ (ProcessDirectory cfg cache backoff dirPath dryRun rootIsDir
        entries hostname now jitter).events, e.isSuppressible = false) ∧
    (ProcessDirectory cfg cache backoff dirPath dryRun rootIsDir entries
        hostname now jitter).seen =
      (ProcessDirectory cfg cache backoff dirPath false rootIsDir entries
        hostname now jitter).seen ∧
    (ProcessDirectory cfg cache backoff dirPath dryRun rootIsDir entries
        hostname now jitter).cache =
      (ProcessDirectory cfg cache backoff dirPath false rootIsDir entries
        hostname now jitter).cache ∧
    (ProcessDirectory cfg cache backoff dirPath dryRun rootIsDir entries
        hostname now jitter).backoff =
      (ProcessDirectory cfg cache backoff dirPath false rootIsDir entries
        hostname now jitter).backoff ∧
    (ProcessDirectory cfg cache backoff dirPath dryRun rootIsDir entries
        hostname now jitter).reads =
      (ProcessDirectory cfg cache backoff dirPath false rootIsDir entries
        hostname now jitter).reads ∧
    (ProcessDirectory cfg cache backoff dirPath dryRun rootIsDir entries
        hostname now jitter).parses =
      (ProcessDirectory cfg cache backoff dirPath false rootIsDir entries
        hostname now jitter).parses ∧
    (ProcessDirectory cfg cache backoff dirPath dryRun rootIsDir entries
        hostname now jitter).cacheWrites =
      (ProcessDirectory cfg cache backoff dirPath false rootIsDir entries
        hostname now jitter).cacheWrites := by
  rcases hss : shouldSkipScan backoff dirPath now with ⟨sk, b1⟩
  cases sk
  · by_cases hroot : rootIsDir = some true
    · subst hroot
      have hguard : (!dryRun && shouldWriteMetrics cfg) = false := by
        rcases h with h | h <;> simp [h, shouldWriteMetrics]
      have hcore1 := walkFold_core_eq cfg dryRun dirPath hostname now entries
        ⟨[], [], cache, 0, 0, 0⟩
      have hcore2 := walkFold_core_eq cfg false dirPath hostname now entries
        ⟨[], [], cache, 0, 0, 0⟩
      have hcore := hcore1.trans hcore2.symm
      simp only [ProcessDirectory, hss]
      rw [if_neg (by simp : ¬ (some true ≠ some true))]
      constructor
      · intro e he
        simp only [hguard, Bool.false_eq_true, if_false, List.append_nil,
          List.mem_append, List.mem_singleton] at he
        rcases he with he | he
        · rcases walkFold_events_suppressed cfg dryRun dirPath hostname now
            entries ⟨[], [], cache, 0, 0, 0⟩ h e he with h1 | h1
          · simp at h1
          · exact h1
        · rw [he]; rfl
      · exact ⟨congrArg ScanCore.seen hcore, congrArg ScanCore.cache hcore,
          rfl, congrArg ScanCore.reads hcore, congrArg ScanCore.parses hcore,
          congrArg ScanCore.cacheWrites hcore⟩
    · simp only [ProcessDirectory, hss]
      rw [if_pos (by simpa using hroot), if_pos (by simpa using hroot)]
      refine ⟨?_, rfl, rfl, rfl, rfl, rfl, rfl⟩
      intro e he
      simp only [List.mem_singleton] at he
      rw [he]; rfl
  · simp [ProcessDirectory, hss]

/-- C1 witness: a dry-run scan over one valid certificate file updates
the duplicate map and the cache exactly as the non-dry-run scan
does. -/
theorem processDirectory_dryRun_suppression_witness :
    (ProcessDirectory ⟨false, 45, false⟩ [] [] "/certs" true (some true)
      [.fileEntry ⟨"/certs/a.pem", "a.pem", some ⟨100, 10⟩, true,
        ⟨none, [⟨"CERTIFICATE",
          some ⟨"cn", "ca", 0, 10, [], [1], .rsa 4096, .SHA256WithRSA⟩⟩]⟩⟩]
      "host" 0 0).cache =
    (ProcessDirectory ⟨false, 45, false⟩ [] [] "/certs" false (some true)
      [.fileEntry ⟨"/certs/a.pem", "a.pem", some ⟨100, 10⟩, true,
        ⟨none, [⟨"CERTIFICATE",
          some ⟨"cn", "ca", 0, 10, [], [1], .rsa 4096, .SHA256WithRSA⟩⟩]⟩⟩]
      "host" 0 0).cache ∧
    (ProcessDirectory ⟨false, 45, false⟩ [] [] "/certs" true (some true)
      [.fileEntry ⟨"/certs/a.pem", "a.pem", some ⟨100, 10⟩, true,
        ⟨none, [⟨"CERTIFICATE",
          some ⟨"cn", "ca", 0, 10, [], [1], .rsa 4096, .SHA256WithRSA⟩⟩]⟩⟩]
      "host" 0 0).parses =
    (ProcessDirectory ⟨false, 45, false⟩ [] [] "/certs" false (some true)
      [.fileEntry ⟨"/certs/a.pem", "a.pem", some ⟨100, 10⟩, true,
        ⟨none, [⟨"CERTIFICATE",
          some ⟨"cn", "ca", 0, 10, [], [1], .rsa 4096, .SHA256WithRSA⟩⟩]⟩⟩]
      "host" 0 0).parses := by
  have h := processDirectory_dryRun_suppression ⟨false, 45, false⟩ [] []
    "/certs" true (some true)
    [.fileEntry ⟨"/certs/a.pem", "a.pem", some ⟨100, 10⟩, true,
      ⟨none, [⟨"CERTIFICATE",
        some ⟨"cn", "ca", 0, 10, [], [1], .rsa 4096, .SHA256WithRSA⟩⟩]⟩⟩]
    "host" 0 0 (Or.inl rfl)
  exact ⟨h.2.2.1, h.2.2.2.2.2.1⟩

end CertMonitor
